import Mathlib

/-!
# Verification of the encrypted-2048 core (readiness state machine + grid engine)

Shallow embedding of the game logic of the repository.  The grid engine is
translated from the home component embedded in `src/src/fhe/useFHE.ts`
(lines 484-987, the coherent latest variant: `addRandomTile` 601-620,
`slideRowLeft` 639-658, `isGameOver` 663-674, `move` 676-736) which agrees
with the variants in `src/src/pages/home.tsx` (`slideRowLeft` 570-588,
`isGameOver` 657-667, the merge loop of `move` 163-177) on every point the
claims touch.  The readiness machine and the sealing client are translated
from the `useFHE` hook variants in `src/src/fhe/useFHE.ts` (status type and
CDN polling 26-126, client memo 223-252, mock fallback 301-309).

Cell values are modelled as plain naturals (the mock provider is a
pass-through, `encrypt32 = id`, `unseal = Number(x ?? 0)`); the fallible
provider used by the error-handling claims is modelled with `Except`.
Randomness (`Math.random`) is determinized by injecting the chosen empty
cell index and the 2-or-4 choice as parameters, as the spec allows
("Randomness source is pluggable for deterministic testing").
-/

namespace Enc

/-- Move directions, `type Direction = "left" | "right" | "up" | "down"`. -/
inductive Direction
  | left
  | right
  | up
  | down
deriving DecidableEq

/-- A 4x4 grid of cells; `null` cells are `none`, sealed tiles are `some v`
with `v` the (mock-unsealed) plaintext.  `BOARD_SIZE = 4`. -/
def Board : Type := Fin 4 → Fin 4 → Option Nat

/-- Mock unsealing, `(x) => Number(x ?? 0)` (useFHE.ts line 230). -/
def munseal (x : Option Nat) : Nat := x.getD 0

/-- The sealing client interface consumed by the grid engine:
`encrypt32` seals a plaintext, `unsealFn` (named `unseal` in the
source; that word is reserved in Lean) recovers it and may fail
(the real `unseal` at useFHE.ts lines 242-250 throws on decrypt failure). -/
structure Client where
  encrypt32 : Nat → Nat
  unsealFn : Option Nat → Except String Nat

/-- The mock pass-through client (useFHE.ts lines 228-231):
`encrypt32: (v) => v`, `unseal: (x) => Number(x ?? 0)` (never fails). -/
def mockClient : Client where
  encrypt32 := fun v => v
  unsealFn := fun x => Except.ok (x.getD 0)

/-- The merge loop of `slideRowLeft` (useFHE.ts 645-655) on the non-null
values, with the head of the still-unprocessed part passed separately.
The source iterates `j` over the filtered row; on a merge it writes the
doubled value at `j`, splices out `j+1` and does `j--`, so the next
comparison is the merged cell against the following cell (the scan resumes
AT the merged cell).  Here `a` is the cell currently at position `j` and
`l` the cells after it. -/
def mergeRunAux : Nat → List Nat → List Nat × Nat
  | a, [] => ([a], 0)
  | a, b :: rest =>
    if a = b then
      let p := mergeRunAux (a * 2) rest
      (p.1, p.2 + a * 2)
    else
      let p := mergeRunAux b rest
      (a :: p.1, p.2)

/-- The full merge pass over a compacted row. -/
def mergeRun : List Nat → List Nat × Nat
  | [] => ([], 0)
  | a :: rest => mergeRunAux a rest

/-- The doubled values created by the merge events of `mergeRunAux`,
in the order the merges happen. -/
def mergedValsAux : Nat → List Nat → List Nat
  | _, [] => []
  | a, b :: rest =>
    if a = b then a * 2 :: mergedValsAux (a * 2) rest
    else mergedValsAux b rest

/-- The doubled values created by the merge events of a full merge pass. -/
def mergedVals : List Nat → List Nat
  | [] => []
  | a :: rest => mergedValsAux a rest

/-- `slideRowLeft` (useFHE.ts 639-658): filter out nulls, run the merge
loop, re-pad with nulls to width 4; returns the new row and the score
gained. -/
def slideRowLeft (row : List (Option Nat)) : List (Option Nat) × Nat :=
  let p := mergeRun (row.filterMap id)
  (p.1.map some ++ List.replicate (4 - p.1.length) none, p.2)

/-- Row `i` of a board as a list, `[b i 0, b i 1, b i 2, b i 3]`. -/
def getRow (b : Board) (i : Fin 4) : List (Option Nat) :=
  [b i ⟨0, by omega⟩, b i ⟨1, by omega⟩, b i ⟨2, by omega⟩, b i ⟨3, by omega⟩]

/-- Rebuild a board from a function giving each row as a list. -/
def fromRows (rows : Fin 4 → List (Option Nat)) : Board :=
  fun i j => (rows i).getD j none

/-- `transpose` (useFHE.ts 660): `b[0].map((_, col) => b.map(row => row[col]))`. -/
def transpose (b : Board) : Board := fun i j => b j i

/-- `reverseRows` (useFHE.ts 661): `b.map(row => row.reverse())`. -/
def reverseRows (b : Board) : Board := fun i j => b i j.rev

/-- The normalization applied before the row pass (useFHE.ts 683-690):
up transposes, right reverses rows, down transposes then reverses rows,
left does nothing. -/
def rotFor : Direction → Board → Board
  | Direction.left => fun b => b
  | Direction.up => transpose
  | Direction.right => reverseRows
  | Direction.down => fun b => reverseRows (transpose b)

/-- The inverse normalization applied after the row pass (useFHE.ts
699-706): up transposes, right reverses rows, down reverses rows then
transposes. -/
def unrotFor : Direction → Board → Board
  | Direction.left => fun b => b
  | Direction.up => transpose
  | Direction.right => reverseRows
  | Direction.down => fun b => transpose (reverseRows b)

/-- The rows after the slide pass, in the rotated frame. -/
def slidRows (b : Board) (d : Direction) : Fin 4 → List (Option Nat) :=
  fun i => (slideRowLeft (getRow (rotFor d b) i)).1

/-- The full grid resulting from a move, before the spawn. -/
def slidBoard (b : Board) (d : Direction) : Board :=
  unrotFor d (fromRows (slidRows b d))

/-- The `moved` flag (useFHE.ts 692-697): true iff some row of the rotated
board is changed by `slideRowLeft` (the source compares JSON strings,
which on rows is list equality). -/
def moveChanged (b : Board) (d : Direction) : Bool :=
  (List.finRange 4).any fun i =>
    decide ((slideRowLeft (getRow (rotFor d b) i)).1 ≠ getRow (rotFor d b) i)

/-- The accumulated score delta of a move (useFHE.ts 692-697). -/
def moveScore (b : Board) (d : Direction) : Nat :=
  ((List.finRange 4).map fun i => (slideRowLeft (getRow (rotFor d b) i)).2).sum

/-- The empty cells of a board in row-major order (useFHE.ts 604-609). -/
def emptyCellsList (b : Board) : List (Fin 4 × Fin 4) :=
  (List.finRange 4).flatMap fun i =>
    ((List.finRange 4).filter fun j => (b i j).isNone).map fun j => (i, j)

/-- `addRandomTile` (useFHE.ts 601-620): collect the empty cells, return
the board unchanged if there are none, otherwise clone the board and put
the freshly sealed 2 (probability 0.9) or 4 (probability 0.1) into the
randomly chosen empty cell.  The random index is injected as `k` (reduced
mod the number of empty cells, matching `Math.floor(Math.random()*len)`),
the 2-or-4 choice as `four`. -/
def addRandomTile (b : Board) (k : Nat) (four : Bool) : Board :=
  let empties := emptyCellsList b
  if empties.isEmpty then b
  else
    let rc := empties.getD (k % empties.length) (⟨0, by omega⟩, ⟨0, by omega⟩)
    fun i j => if i = rc.1 ∧ j = rc.2 then some (if four then 4 else 2) else b i j

/-- Achievement record (home.tsx 67-75; the display-only fields are
dropped): `{ threshold, unlocked, claimed }`. -/
structure Achievement where
  threshold : Nat
  unlocked : Bool
  claimed : Bool
deriving DecidableEq

/-- All 16 cells of the board in row-major order. -/
def boardCells (b : Board) : List (Option Nat) :=
  (List.finRange 4).flatMap fun i => (List.finRange 4).map fun j => b i j

/-- One step of the max-value fold (useFHE.ts 713-721): `if (val) { const
plain = client.unseal(val); if (plain > maxValue) maxValue = plain }` --
null cells and cells unsealing to 0 are skipped (0 is falsy). -/
def maxStep (m : Nat) (c : Option Nat) : Nat :=
  match c with
  | none => m
  | some v => if v = 0 then m else if m < v then v else m

/-- The maximum unsealed value of the board, 0 for an empty board. -/
def boardMax (b : Board) : Nat := (boardCells b).foldl maxStep 0

/-- The achievement update after a changed move (useFHE.ts 723-730):
unlock every still-locked achievement whose threshold is reached. -/
def evalAchievements (maxV : Nat) (l : List Achievement) : List Achievement :=
  l.map fun a =>
    if !a.unlocked && decide (a.threshold ≤ maxV) then { a with unlocked := true }
    else a

/-- What a move produces: the new board, the score delta, the changed
flag, and the updated achievements. -/
structure MoveResult where
  board : Board
  scoreDelta : Nat
  changed : Bool
  achievements : List Achievement

/-- `move` (useFHE.ts 676-736): rotate, slide every row accumulating the
score, rotate back; if nothing changed, stop without touching any state;
otherwise spawn a tile, add the score and re-evaluate the achievements on
the post-spawn board. -/
def move (b : Board) (d : Direction) (k : Nat) (four : Bool)
    (ach : List Achievement) : MoveResult :=
  if moveChanged b d then
    let nb := addRandomTile (slidBoard b d) k four
    { board := nb
      scoreDelta := moveScore b d
      changed := true
      achievements := evalAchievements (boardMax nb) ach }
  else
    { board := b, scoreDelta := 0, changed := false, achievements := ach }

/-- The 16 board positions in row-major scan order. -/
def cellsRM : List (Fin 4 × Fin 4) :=
  (List.finRange 4).flatMap fun i => (List.finRange 4).map fun j => (i, j)

/-- The per-cell test of `isGameOver` (useFHE.ts 663-674): the cell is
non-null, and (within bounds) its unsealed value differs from the cell
below and from the cell to the right. -/
def cellOkB (b : Board) (i j : Fin 4) : Bool :=
  (b i j).isSome &&
  (if h : (i : Nat) + 1 < 4 then
    decide (munseal (b i j) ≠ munseal (b ⟨(i : Nat) + 1, h⟩ j)) else true) &&
  (if h : (j : Nat) + 1 < 4 then
    decide (munseal (b i j) ≠ munseal (b i ⟨(j : Nat) + 1, h⟩)) else true)

/-- `isGameOver` (useFHE.ts 663-674): scan all cells; false as soon as a
null cell or an adjacent equal pair is found, true at the end. -/
def isGameOver (b : Board) : Bool :=
  cellsRM.all fun p => cellOkB b p.1 p.2

/-- The all-empty starting board (useFHE.ts 622-623). -/
def emptyBoard : Board := fun _ _ => none

/-- Build a board from a list of rows (missing cells are empty); used for
concrete test boards. -/
def ofRows (l : List (List (Option Nat))) : Board :=
  fun i j => (l.getD i []).getD j none

/-- `initializeBoard` (useFHE.ts 622-631): fresh empty board with two
spawned tiles. -/
def initBoard (k1 : Nat) (f1 : Bool) (k2 : Nat) (f2 : Bool) : Board :=
  addRandomTile (addRandomTile emptyBoard k1 f1) k2 f2

/-- Non-empty cells hold a positive power of two that is at least 2. -/
def pow2ge2 (v : Nat) : Prop := ∃ k : Nat, 1 ≤ k ∧ v = 2 ^ k

/-- The grid invariant of the spec: every non-empty cell unseals to a
power of two that is at least 2. -/
def invBoard (b : Board) : Prop := ∀ i j v, b i j = some v → pow2ge2 v

/-- The readiness states of the sealing capability, `type FHEStatus`
(useFHE.ts 26-35).  The spec names `failed` is `error` here and
`sealing-unavailable` is `cdnMissing` (source: `cdn-missing`). -/
inductive FHEStatus
  | booting
  | cdnMissing
  | cdnLoaded
  | needsWallet
  | initializing
  | permitNeeded
  | ready
  | mock
  | error
deriving DecidableEq

/-- The client memo (useFHE.ts 223-252): unless the status is `ready` and
the SDK globals are all present, the game logic receives the mock
pass-through client; `real` stands for the CoFHE-backed client built from
the SDK, `avail` for `sdk && enc && types` being present. -/
def clientFor (s : FHEStatus) (avail : Bool) (real : Client) : Client :=
  if s = FHEStatus.ready ∧ avail = true then real else mockClient

/-- The environment signal set by the CDN loader,
`window.__COFHE_STATUS__` (useFHE.ts 92, 96, 112). -/
inductive CdnSignal
  | loaded
  | failed
deriving DecidableEq

/-- The CDN readiness polling loop (useFHE.ts 86-126): starting from
`booting`, each tick reads the loader signal; `loaded` moves to
`cdn-loaded` and stops, `failed` moves to `cdn-missing` and stops, and an
absent signal keeps the status `booting` and re-arms the timer.  `sig n`
is the signal visible at tick `n`; `pollRun sig n` is the status after
`n` ticks. -/
def pollRun (sig : Nat → Option CdnSignal) : Nat → FHEStatus
  | 0 => FHEStatus.booting
  | n + 1 =>
    match pollRun sig n with
    | FHEStatus.booting =>
      match sig n with
      | some CdnSignal.loaded => FHEStatus.cdnLoaded
      | some CdnSignal.failed => FHEStatus.cdnMissing
      | none => FHEStatus.booting
    | s => s

/-- An environment in which the loader never reports anything. -/
def silentSignals : Nat → Option CdnSignal := fun _ => none

/-- The slice of hook state the game board consumes
(`const { client, initialized, error } = useFHE()`, useFHE.ts 590):
`inited` renders `initialized` (the word is reserved for the gate). -/
structure HookState where
  client : Option Client
  inited : Bool
  errorMsg : Option String

/-- The fallback state installed when the CDN library is unavailable
(useFHE.ts 301-309): a mock client, `initialized = true`, no error. -/
def mockFallbackState : HookState :=
  { client := some mockClient, inited := true, errorMsg := none }

/-- The gate at the top of `move` (useFHE.ts 677):
`if (gameOver || !client || !initialized) return;`. -/
def moveBlocked (gameOver : Bool) (s : HookState) : Bool :=
  gameOver || s.client.isNone || !s.inited

/-- The merge loop of `slideRowLeft` run against a fallible client: each
comparison unseals both cells (useFHE.ts 646-647) and a merge stores the
sealed doubled value (648-649); an unseal failure propagates, there is no
handler in the engine. -/
def mergeRunEAux (c : Client) : Nat → List Nat → Except String (List Nat × Nat)
  | a, [] => Except.ok ([a], 0)
  | a, b :: rest => do
    let v1 ← c.unsealFn (some a)
    let v2 ← c.unsealFn (some b)
    if v1 = v2 then
      let p ← mergeRunEAux c (c.encrypt32 (v1 * 2)) rest
      Except.ok (p.1, p.2 + v1 * 2)
    else
      let p ← mergeRunEAux c b rest
      Except.ok (a :: p.1, p.2)

/-- The full fallible merge pass. -/
def mergeRunE (c : Client) : List Nat → Except String (List Nat × Nat)
  | [] => Except.ok ([], 0)
  | a :: rest => mergeRunEAux c a rest

/-- `slideRowLeft` against a fallible client (useFHE.ts 639-658). -/
def slideRowLeftE (c : Client) (row : List (Option Nat)) :
    Except String (List (Option Nat) × Nat) := do
  let p ← mergeRunE c (row.filterMap id)
  Except.ok (p.1.map some ++ List.replicate (4 - p.1.length) none, p.2)

/-- One cell of the `isGameOver` scan against a fallible client (useFHE.ts
665-671): `ok false` means the scan stops with result false, `ok true`
means the scan goes on; an unseal failure propagates. -/
def checkCellE (c : Client) (b : Board) (i j : Fin 4) : Except String Bool :=
  if b i j = none then Except.ok false
  else do
    let v ← c.unsealFn (b i j)
    let e1 ←
      if h : (i : Nat) + 1 < 4 then do
        let w ← c.unsealFn (b ⟨(i : Nat) + 1, h⟩ j)
        pure (decide (v = w))
      else pure false
    if e1 then Except.ok false
    else
      let e2 ←
        if h : (j : Nat) + 1 < 4 then do
          let w ← c.unsealFn (b i ⟨(j : Nat) + 1, h⟩)
          pure (decide (v = w))
        else pure false
      if e2 then Except.ok false else Except.ok true

/-- The `isGameOver` scan over a list of positions. -/
def isGameOverEAux (c : Client) (b : Board) : List (Fin 4 × Fin 4) → Except String Bool
  | [] => Except.ok true
  | p :: rest => do
    let ok ← checkCellE c b p.1 p.2
    if ok then isGameOverEAux c b rest else Except.ok false

/-- `isGameOver` against a fallible client (useFHE.ts 663-674). -/
def isGameOverE (c : Client) (b : Board) : Except String Bool :=
  isGameOverEAux c b cellsRM

/-- Modelled from the spec (claim C1): the classic single-pass merge in
which the scan continues AFTER a merged cell, so a cell produced by one
merge is never merged again.  Used only to compare the code against the
words of the spec. -/
def mergeNoCascadeAux : Nat → List Nat → List Nat × Nat
  | a, [] => ([a], 0)
  | a, b :: rest =>
    if a = b then
      match rest with
      | [] => ([a * 2], a * 2)
      | c :: rest2 =>
        let p := mergeNoCascadeAux c rest2
        (a * 2 :: p.1, p.2 + a * 2)
    else
      let p := mergeNoCascadeAux b rest
      (a :: p.1, p.2)

/-- Modelled from the spec (claim C1): `slideRowLeft` as the spec words
it, merging left-to-right without cascaded re-merges. -/
def slideRowLeftNoCascade (row : List (Option Nat)) : List (Option Nat) × Nat :=
  let f := row.filterMap id
  let p := match f with
    | [] => ([], 0)
    | a :: rest => mergeNoCascadeAux a rest
  (p.1.map some ++ List.replicate (4 - p.1.length) none, p.2)

/-! Sanity checks of the embedding on concrete inputs. -/

example : mergeRun [2, 2, 2, 2] = ([4, 4], 8) := rfl

example : mergeRun [2, 2, 4] = ([8], 12) := rfl

example : mergeRun [2, 4, 4] = ([2, 8], 8) := rfl

example : slideRowLeft [some 2, some 2, some 2, some 2] = ([some 4, some 4, none, none], 8) := rfl

example : slideRowLeft [some 2, none, some 2, none] = ([some 4, none, none, none], 4) := rfl

example :
    (move (ofRows [[some 2, some 2, some 2, some 2]]) Direction.left 0 false []).scoreDelta = 8 := by
  decide

example : moveChanged (ofRows [[some 2, some 4, some 2, some 4]]) Direction.left = false := by
  decide

example : isGameOver (ofRows [[some 2, some 4, some 2, some 4],
    [some 4, some 2, some 4, some 2], [some 2, some 4, some 2, some 4],
    [some 4, some 2, some 4, some 2]]) = true := by decide

example : isGameOver (ofRows [[some 2, some 2, some 2, some 4],
    [some 4, some 2, some 4, some 2], [some 2, some 4, some 2, some 4],
    [some 4, some 2, some 4, some 2]]) = false := by decide

example : isGameOver emptyBoard = false := by decide

example : addRandomTile emptyBoard 0 false ⟨0, by omega⟩ ⟨0, by omega⟩ = some 2 := by decide

example : boardMax (ofRows [[some 2, some 8, none, some 4]]) = 8 := by decide

example :
    slidBoard (ofRows [[some 2, some 2, none, none]]) Direction.right ⟨0, by omega⟩ ⟨3, by omega⟩
      = some 4 := by decide

example :
    slidBoard (ofRows [[some 2], [some 2], [some 2], [some 2]]) Direction.down ⟨3, by omega⟩
      ⟨0, by omega⟩ = some 4 := by decide

example :
    slidBoard (ofRows [[some 2], [some 2], [some 2], [some 2]]) Direction.down ⟨2, by omega⟩
      ⟨0, by omega⟩ = some 4 := by decide

example :
    slidBoard (ofRows [[some 2], [some 2], [some 2], [some 2]]) Direction.down ⟨0, by omega⟩
      ⟨0, by omega⟩ = none := by decide

example :
    slidBoard (ofRows [[none, none, some 2, none], [], [], [some 4]]) Direction.up ⟨0, by omega⟩
      ⟨2, by omega⟩ = some 2 := by decide

/-! Basic lemmas about the merge pass and the board plumbing. -/

lemma mergeRunAux_score (l : List Nat) : ∀ a, (mergeRunAux a l).2 = (mergedValsAux a l).sum := by
  induction l with
  | nil => intro a; simp [mergeRunAux, mergedValsAux]
  | cons b rest ih =>
    intro a
    by_cases h : a = b
    · simp [mergeRunAux, mergedValsAux, h, ih]
      omega
    · simp [mergeRunAux, mergedValsAux, h, ih]

lemma mergeRun_score (l : List Nat) : (mergeRun l).2 = (mergedVals l).sum := by
  cases l with
  | nil => simp [mergeRun, mergedVals]
  | cons a rest => simp [mergeRun, mergedVals, mergeRunAux_score]

lemma mergeRunAux_length (l : List Nat) : ∀ a, (mergeRunAux a l).1.length ≤ l.length + 1 := by
  induction l with
  | nil => intro a; simp [mergeRunAux]
  | cons b rest ih =>
    intro a
    by_cases h : a = b
    · simp only [mergeRunAux, if_pos h]
      exact le_trans (ih (a * 2)) (by simp)
    · simp only [mergeRunAux, if_neg h, List.length_cons]
      exact Nat.succ_le_succ (ih b)

lemma mergeRun_length (l : List Nat) : (mergeRun l).1.length ≤ l.length := by
  cases l with
  | nil => simp [mergeRun]
  | cons a rest => simpa [mergeRun] using mergeRunAux_length rest a

lemma slideRowLeft_fst_length (row : List (Option Nat)) (h : row.length ≤ 4) :
    (slideRowLeft row).1.length = 4 := by
  have h1 : (mergeRun (row.filterMap id)).1.length ≤ 4 :=
    le_trans (mergeRun_length _) (le_trans (List.length_filterMap_le _ _) h)
  simp only [slideRowLeft, List.length_append, List.length_map, List.length_replicate]
  omega

lemma getRow_length (b : Board) (i : Fin 4) : (getRow b i).length = 4 := rfl

lemma length4_cases (l : List (Option Nat)) (h : l.length = 4) :
    ∃ a b c d, l = [a, b, c, d] := by
  rcases l with _ | ⟨a, l⟩
  · simp at h
  rcases l with _ | ⟨b, l⟩
  · simp at h
  rcases l with _ | ⟨c, l⟩
  · simp at h
  rcases l with _ | ⟨d, l⟩
  · simp at h
  rcases l with _ | ⟨e, l⟩
  · exact ⟨a, b, c, d, rfl⟩
  · simp at h

lemma list4_ne {l1 l2 : List (Option Nat)} (h1 : l1.length = 4) (h2 : l2.length = 4)
    (hne : l1 ≠ l2) : ∃ j : Fin 4, l1.getD j none ≠ l2.getD j none := by
  obtain ⟨a, b, c, d, rfl⟩ := length4_cases l1 h1
  obtain ⟨e, f, g, k, rfl⟩ := length4_cases l2 h2
  by_contra hc
  push_neg at hc
  apply hne
  have h0 := hc ⟨0, by omega⟩
  have hone := hc ⟨1, by omega⟩
  have htwo := hc ⟨2, by omega⟩
  have hthree := hc ⟨3, by omega⟩
  simp [List.getD] at h0 hone htwo hthree
  simp [h0, hone, htwo, hthree]

lemma fromRows_getRow (b : Board) : fromRows (fun i => getRow b i) = b := by
  funext i j
  fin_cases j <;> rfl

lemma getRow_fromRows (rows : Fin 4 → List (Option Nat)) (i : Fin 4)
    (h : (rows i).length = 4) : getRow (fromRows rows) i = rows i := by
  obtain ⟨a, b, c, d, hl⟩ := length4_cases (rows i) h
  simp [getRow, fromRows, hl, List.getD]

lemma transpose_transpose (b : Board) : transpose (transpose b) = b := rfl

lemma reverseRows_reverseRows (b : Board) : reverseRows (reverseRows b) = b := by
  funext i j
  show b i j.rev.rev = b i j
  rw [Fin.rev_rev]

lemma unrot_rot (d : Direction) (b : Board) : unrotFor d (rotFor d b) = b := by
  cases d <;>
    simp [rotFor, unrotFor, transpose_transpose, reverseRows_reverseRows]

lemma rot_unrot (d : Direction) (b : Board) : rotFor d (unrotFor d b) = b := by
  cases d <;>
    simp [rotFor, unrotFor, transpose_transpose, reverseRows_reverseRows]

lemma unrot_inj {d : Direction} {x y : Board} (h : unrotFor d x = unrotFor d y) : x = y := by
  have h2 := congrArg (rotFor d) h
  rwa [rot_unrot, rot_unrot] at h2

lemma board_ne_iff (x y : Board) : x ≠ y ↔ ∃ i j, x i j ≠ y i j := by
  constructor
  · intro h
    by_contra hc
    push_neg at hc
    exact h (funext fun i => funext fun j => hc i j)
  · rintro ⟨i, j, hij⟩ he
    exact hij (by rw [he])

lemma slidRows_length (b : Board) (d : Direction) (i : Fin 4) :
    (slidRows b d i).length = 4 :=
  slideRowLeft_fst_length _ (by simp [getRow_length])

lemma moveChanged_iff (b : Board) (d : Direction) :
    moveChanged b d = true ↔ slidBoard b d ≠ b := by
  have hany : moveChanged b d = true ↔
      ∃ i, (slideRowLeft (getRow (rotFor d b) i)).1 ≠ getRow (rotFor d b) i := by
    simp [moveChanged, List.any_eq_true, List.mem_finRange]
  rw [hany]
  constructor
  · rintro ⟨i, hne⟩ heq
    apply hne
    have h2 := congrArg (rotFor d) heq
    rw [slidBoard, rot_unrot] at h2
    have h3 := congrArg (fun x => getRow x i) h2
    simpa [getRow_fromRows _ i (slidRows_length b d i), slidRows] using h3
  · intro hne
    by_contra hc
    push_neg at hc
    apply hne
    have hall : (fun i => slidRows b d i) = fun i => getRow (rotFor d b) i :=
      funext fun i => hc i
    calc slidBoard b d = unrotFor d (fromRows (fun i => getRow (rotFor d b) i)) := by
          rw [slidBoard]
          exact congrArg (unrotFor d) (congrArg fromRows hall)
      _ = unrotFor d (rotFor d b) := by rw [fromRows_getRow]
      _ = b := unrot_rot d b

lemma move_changed_eq (b : Board) (d : Direction) (k : Nat) (four : Bool)
    (ach : List Achievement) : (move b d k four ach).changed = moveChanged b d := by
  by_cases h : moveChanged b d = true <;> simp [move, h]

/-- Claim C3: for every grid and every direction, the changed flag
computed by move is true iff the pre-spawn result grid differs from the
input grid at some cell; the spawn happens exactly when changed is true,
and otherwise the board, the score delta and the achievements are left
untouched. -/
theorem claim3_changed_iff (b : Board) (d : Direction) (k : Nat) (four : Bool)
    (ach : List Achievement) :
    ((move b d k four ach).changed = true ↔ ∃ i j, slidBoard b d i j ≠ b i j)
    ∧ ((move b d k four ach).changed = false →
        (move b d k four ach).board = b ∧ (move b d k four ach).scoreDelta = 0
          ∧ (move b d k four ach).achievements = ach)
    ∧ ((move b d k four ach).changed = true →
        (move b d k four ach).board = addRandomTile (slidBoard b d) k four) := by
  have key : moveChanged b d = true ↔ ∃ i j, slidBoard b d i j ≠ b i j := by
    rw [moveChanged_iff]
    exact board_ne_iff _ _
  refine ⟨by rw [move_changed_eq]; exact key, ?_, ?_⟩
  · intro hc
    rw [move_changed_eq] at hc
    simp [move, hc]
  · intro hc
    rw [move_changed_eq] at hc
    simp [move, hc]

/-- Witness for claim C3 at a concrete grid: the row `[2,2,-,-]` moved
left changes the grid, and the resulting board is the slid board with the
spawned tile. -/
theorem claim3_witness :
    (move (ofRows [[some 2, some 2]]) Direction.left 0 false []).changed = true
    ∧ (move (ofRows [[some 2, some 2]]) Direction.left 0 false []).board
        = addRandomTile (slidBoard (ofRows [[some 2, some 2]]) Direction.left) 0 false :=
  ⟨by decide,
   (claim3_changed_iff (ofRows [[some 2, some 2]]) Direction.left 0 false []).2.2 (by decide)⟩

/-- Claim C4: the score delta of a move is exactly the sum, over the
merges performed in the move, of the doubled values created by those
merges (zero when the move changes nothing and is rolled back), and it is
independent of the spawn parameters: the base value of a spawned tile is
never added to the score. -/
theorem claim4_score_merges (b : Board) (d : Direction) (k : Nat) (four : Bool)
    (ach : List Achievement) :
    ((move b d k four ach).scoreDelta =
      if (move b d k four ach).changed then
        ((List.finRange 4).map fun i =>
          (mergedVals ((getRow (rotFor d b) i).filterMap id)).sum).sum
      else 0)
    ∧ (∀ k2 four2, (move b d k2 four2 ach).scoreDelta = (move b d k four ach).scoreDelta) := by
  have hsc : moveScore b d = ((List.finRange 4).map fun i =>
      (mergedVals ((getRow (rotFor d b) i).filterMap id)).sum).sum := by
    simp [moveScore, slideRowLeft, mergeRun_score]
  constructor
  · by_cases h : moveChanged b d = true
    · simp [move, h, move_changed_eq, hsc]
    · simp [move, h, move_changed_eq]
  · intro k2 four2
    by_cases h : moveChanged b d = true <;> simp [move, h]

lemma mem_cellsRM (p : Fin 4 × Fin 4) : p ∈ cellsRM := by
  obtain ⟨i, j⟩ := p
  simp [cellsRM]

/-- Claim C2: the terminal check (isGameOver) returns true iff the grid
has no empty cell and no two horizontally or vertically adjacent cells
unseal to equal values. -/
theorem claim2_isTerminal_iff (b : Board) :
    isGameOver b = true ↔
      (∀ i j, b i j ≠ none)
      ∧ (∀ (i j : Fin 4) (h : (i : Nat) + 1 < 4) (v : Nat),
          ¬(b i j = some v ∧ b ⟨(i : Nat) + 1, h⟩ j = some v))
      ∧ (∀ (i j : Fin 4) (h : (j : Nat) + 1 < 4) (v : Nat),
          ¬(b i j = some v ∧ b i ⟨(j : Nat) + 1, h⟩ = some v)) := by
  rw [isGameOver, List.all_eq_true]
  constructor
  · intro hall
    refine ⟨?_, ?_, ?_⟩
    · intro i j
      have h := hall (i, j) (mem_cellsRM _)
      simp only [cellOkB, Bool.and_eq_true] at h
      exact Option.isSome_iff_ne_none.mp h.1.1
    · rintro i j h v ⟨hv1, hv2⟩
      have hc := hall (i, j) (mem_cellsRM _)
      simp only [cellOkB, Bool.and_eq_true] at hc
      have hx := hc.1.2
      rw [dif_pos h] at hx
      simp [munseal, hv1, hv2] at hx
    · rintro i j h v ⟨hv1, hv2⟩
      have hc := hall (i, j) (mem_cellsRM _)
      simp only [cellOkB, Bool.and_eq_true] at hc
      have hx := hc.2
      rw [dif_pos h] at hx
      simp [munseal, hv1, hv2] at hx
  · rintro ⟨hnone, hrow, hcol⟩ p _
    obtain ⟨i, j⟩ := p
    simp only [cellOkB, Bool.and_eq_true]
    refine ⟨⟨Option.isSome_iff_ne_none.mpr (hnone i j), ?_⟩, ?_⟩
    · by_cases h : (i : Nat) + 1 < 4
      · rw [dif_pos h]
        obtain ⟨v1, hv1⟩ := Option.ne_none_iff_exists'.mp (hnone i j)
        obtain ⟨v2, hv2⟩ := Option.ne_none_iff_exists'.mp (hnone ⟨(i : Nat) + 1, h⟩ j)
        simp only [munseal, hv1, hv2, Option.getD_some, decide_eq_true_eq]
        intro he
        exact hrow i j h v1 ⟨hv1, by rw [hv2, he]⟩
      · rw [dif_neg h]
    · by_cases h : (j : Nat) + 1 < 4
      · rw [dif_pos h]
        obtain ⟨v1, hv1⟩ := Option.ne_none_iff_exists'.mp (hnone i j)
        obtain ⟨v2, hv2⟩ := Option.ne_none_iff_exists'.mp (hnone i ⟨(j : Nat) + 1, h⟩)
        simp only [munseal, hv1, hv2, Option.getD_some, decide_eq_true_eq]
        intro he
        exact hcol i j h v1 ⟨hv1, by rw [hv2, he]⟩
      · rw [dif_neg h]

/-- Witness for claim C2 at a concrete terminal grid (an alternating
checkerboard of 2 and 4): the characterization yields that no cell is
empty. -/
theorem claim2_witness :
    ∀ i j, ofRows [[some 2, some 4, some 2, some 4], [some 4, some 2, some 4, some 2],
      [some 2, some 4, some 2, some 4], [some 4, some 2, some 4, some 2]] i j ≠ none :=
  ((claim2_isTerminal_iff (ofRows [[some 2, some 4, some 2, some 4],
      [some 4, some 2, some 4, some 2], [some 2, some 4, some 2, some 4],
      [some 4, some 2, some 4, some 2]])).mp (by decide)).1

lemma replicate_none_getD (k m : Nat) :
    (List.replicate k (none : Option Nat)).getD m none = none := by
  induction k generalizing m with
  | zero => simp [List.getD]
  | succ k ih =>
    cases m with
    | zero => simp
    | succ m => simp [ih m]

lemma slide_pad_getD (xs : List Nat) (k i : Nat) (h : xs.length ≤ i) :
    (xs.map some ++ List.replicate k (none : Option Nat)).getD i none = none := by
  rw [List.getD_append_right _ _ _ _ (by simpa using h)]
  exact replicate_none_getD _ _

/-- Counterexample to claim C1: on the row `[2,2,4,-]` the merge loop of
slideRowLeft first merges the two 2s and then, because the scan resumes at
the merged cell, merges the fresh 4 with the old 4: the code produces
`[8,-,-,-]` with score 12, while the single-pass no-cascade algorithm the
claim describes produces `[4,4,-,-]` with score 4. -/
theorem claim1_counterexample :
    slideRowLeft [some 2, some 2, some 4, none] = ([some 8, none, none, none], 12)
    ∧ slideRowLeftNoCascade [some 2, some 2, some 4, none]
        = ([some 4, some 4, none, none], 4)
    ∧ slideRowLeft [some 2, some 2, some 4, none]
        ≠ slideRowLeftNoCascade [some 2, some 2, some 4, none] :=
  ⟨by decide, by decide, by decide⟩

/-- Claim C1 as amended: the slide-and-merge pass compacts the non-empty
cells into a left prefix preserving order and merges equal adjacent pairs
left-to-right, but after a merge the scan resumes AT the merged cell, so a
cell produced by a merge CAN merge again with the following cell; on the
row `[2,2,2,2]` this still yields `[4,4,-,-]` with scoreDelta 8 (the
merged 4 meets a 2, not a 4), both at row level and through `move(left)`. -/
theorem claim1_amended :
    slideRowLeft [some 2, some 2, some 2, some 2] = ([some 4, some 4, none, none], 8)
    ∧ (move (ofRows [[some 2, some 2, some 2, some 2]]) Direction.left 0 false
        []).scoreDelta = 8
    ∧ (∀ (r : List (Option Nat)) (i j : Nat), i ≤ j →
        (slideRowLeft r).1.getD i none = none → (slideRowLeft r).1.getD j none = none)
    ∧ (∀ (a : Nat) (rest : List Nat),
        mergeRun (a :: a :: rest)
          = ((mergeRun (a * 2 :: rest)).1, (mergeRun (a * 2 :: rest)).2 + a * 2)) := by
  refine ⟨by decide, by decide, ?_, ?_⟩
  · intro r i j hij hi
    have hfst : (slideRowLeft r).1
        = (mergeRun (r.filterMap id)).1.map some
          ++ List.replicate (4 - (mergeRun (r.filterMap id)).1.length) none := rfl
    rw [hfst] at hi ⊢
    by_cases hlt : i < (mergeRun (r.filterMap id)).1.length
    · exfalso
      rw [List.getD_append _ _ _ _ (by simpa using hlt)] at hi
      rw [List.getD_eq_getElem _ _ (by simpa using hlt)] at hi
      simp at hi
    · exact slide_pad_getD _ _ _ (by omega)
  · intro a rest
    simp [mergeRun, mergeRunAux]

/-- Witness for the amended claim C1: the already-slid row `[4,-,-,-]` has
an empty cell at index 1, hence also at index 3 (no internal gaps). -/
theorem claim1_witness :
    (slideRowLeft [some 4, none, none, none]).1.getD 3 none = none :=
  claim1_amended.2.2.1 [some 4, none, none, none] 1 3 (by decide) (by decide)

lemma pow2ge2_double {v : Nat} (h : pow2ge2 v) : pow2ge2 (v * 2) := by
  obtain ⟨k, hk, rfl⟩ := h
  exact ⟨k + 1, by omega, by ring⟩

lemma mergeRunAux_inv (l : List Nat) : ∀ a, pow2ge2 a → (∀ x ∈ l, pow2ge2 x) →
    ∀ x ∈ (mergeRunAux a l).1, pow2ge2 x := by
  induction l with
  | nil =>
    intro a ha _ x hx
    simp [mergeRunAux] at hx
    exact hx ▸ ha
  | cons b rest ih =>
    intro a ha hl x hx
    by_cases h : a = b
    · simp only [mergeRunAux, if_pos h] at hx
      exact ih (a * 2) (pow2ge2_double ha) (fun y hy => hl y (List.mem_cons_of_mem _ hy)) x hx
    · simp only [mergeRunAux, if_neg h] at hx
      rcases List.mem_cons.mp hx with rfl | hx2
      · exact ha
      · exact ih b (hl b (List.mem_cons_self _ _))
          (fun y hy => hl y (List.mem_cons_of_mem _ hy)) x hx2

lemma mergeRun_inv (l : List Nat) (h : ∀ x ∈ l, pow2ge2 x) :
    ∀ x ∈ (mergeRun l).1, pow2ge2 x := by
  cases l with
  | nil => simp [mergeRun]
  | cons a rest =>
    exact mergeRunAux_inv rest a (h a (List.mem_cons_self _ _))
      (fun y hy => h y (List.mem_cons_of_mem _ hy))

lemma slideRowLeft_inv (row : List (Option Nat))
    (h : ∀ c ∈ row, ∀ v, c = some v → pow2ge2 v) :
    ∀ c ∈ (slideRowLeft row).1, ∀ v, c = some v → pow2ge2 v := by
  intro c hc v hv
  rcases List.mem_append.mp hc with hc1 | hc2
  · obtain ⟨x, hx, rfl⟩ := List.mem_map.mp hc1
    injection hv with hxv
    subst hxv
    refine mergeRun_inv _ ?_ _ hx
    intro y hy
    obtain ⟨cy, hcy, hcy2⟩ := List.mem_filterMap.mp hy
    exact h cy hcy y hcy2
  · rw [List.eq_of_mem_replicate hc2] at hv
    simp at hv

lemma invBoard_transpose {b : Board} (h : invBoard b) : invBoard (transpose b) :=
  fun i j v hv => h j i v hv

lemma invBoard_reverseRows {b : Board} (h : invBoard b) : invBoard (reverseRows b) :=
  fun i j v hv => h i j.rev v hv

lemma invBoard_rot {b : Board} (d : Direction) (h : invBoard b) : invBoard (rotFor d b) := by
  cases d with
  | left => exact h
  | up => exact invBoard_transpose h
  | right => exact invBoard_reverseRows h
  | down => exact invBoard_reverseRows (invBoard_transpose h)

lemma invBoard_unrot {b : Board} (d : Direction) (h : invBoard b) : invBoard (unrotFor d b) := by
  cases d with
  | left => exact h
  | up => exact invBoard_transpose h
  | right => exact invBoard_reverseRows h
  | down => exact invBoard_transpose (invBoard_reverseRows h)

lemma getD_default_or_mem (l : List (Option Nat)) (n : Nat) :
    l.getD n none = none ∨ l.getD n none ∈ l := by
  by_cases hn : n < l.length
  · right
    rw [List.getD_eq_getElem _ _ hn]
    exact List.getElem_mem hn
  · left
    exact List.getD_eq_default _ _ (le_of_not_lt hn)

lemma invBoard_fromRows (rows : Fin 4 → List (Option Nat))
    (h : ∀ i, ∀ c ∈ rows i, ∀ v, c = some v → pow2ge2 v) : invBoard (fromRows rows) := by
  intro i j v hv
  rcases getD_default_or_mem (rows i) j with he | hm
  · rw [show fromRows rows i j = (rows i).getD j none from rfl, he] at hv
    simp at hv
  · exact h i _ hm v hv

lemma invBoard_getRow {b : Board} (h : invBoard b) (i : Fin 4) :
    ∀ c ∈ getRow b i, ∀ v, c = some v → pow2ge2 v := by
  intro c hc v hv
  simp only [getRow, List.mem_cons, List.mem_singleton] at hc
  rcases hc with rfl | rfl | rfl | rfl | hfalse
  · exact h i _ v hv
  · exact h i _ v hv
  · exact h i _ v hv
  · exact h i _ v hv
  · simp at hfalse

lemma invBoard_slidBoard {b : Board} (d : Direction) (h : invBoard b) :
    invBoard (slidBoard b d) :=
  invBoard_unrot d (invBoard_fromRows _ (fun i =>
    slideRowLeft_inv _ (invBoard_getRow (invBoard_rot d h) i)))

lemma invBoard_addRandomTile {b : Board} (k : Nat) (four : Bool) (h : invBoard b) :
    invBoard (addRandomTile b k four) := by
  unfold addRandomTile
  by_cases he : (emptyCellsList b).isEmpty
  · simpa [he] using h
  · simp only [he, Bool.false_eq_true, if_false]
    intro i j v hv
    dsimp only at hv
    split at hv
    · injection hv with hxv
      cases four with
      | true =>
        simp only [if_pos rfl] at hxv
        exact ⟨2, by omega, by rw [← hxv]; norm_num⟩
      | false =>
        simp at hxv
        exact ⟨1, by omega, by rw [← hxv]; norm_num⟩
    · exact h i j v hv

/-- Claim C7: the grid invariant (every non-empty cell unseals to a power
of two that is at least 2) is preserved by spawning, by a full move, and
holds for the restart board, because spawns seal only 2 or 4 and merges
seal exactly the doubled value. -/
theorem claim7_invariant (b : Board) (d : Direction) (k : Nat) (four : Bool)
    (k1 : Nat) (f1 : Bool) (k2 : Nat) (f2 : Bool) (ach : List Achievement)
    (h : invBoard b) :
    invBoard (addRandomTile b k four)
    ∧ invBoard ((move b d k four ach).board)
    ∧ invBoard (initBoard k1 f1 k2 f2) := by
  refine ⟨invBoard_addRandomTile k four h, ?_, ?_⟩
  · by_cases hm : moveChanged b d = true
    · have h2 := invBoard_addRandomTile k four (invBoard_slidBoard d h)
      simpa [move, hm] using h2
    · simpa [move, hm] using h
  · have h0 : invBoard emptyBoard := fun i j v hv => by simp [emptyBoard] at hv
    exact invBoard_addRandomTile k2 f2 (invBoard_addRandomTile k1 f1 h0)

/-- Witness for claim C7: the empty board satisfies the invariant, and so
do the spawned board, the moved board and a restart board. -/
theorem claim7_witness :
    invBoard emptyBoard
    ∧ (invBoard (addRandomTile emptyBoard 0 false)
      ∧ invBoard ((move emptyBoard Direction.left 0 false []).board)
      ∧ invBoard (initBoard 0 false 1 true)) :=
  ⟨fun i j v hv => by simp [emptyBoard] at hv,
   claim7_invariant emptyBoard Direction.left 0 false 0 false 1 true []
     (fun i j v hv => by simp [emptyBoard] at hv)⟩

lemma evalAchievements_map (m : Nat) (l : List Achievement) :
    evalAchievements m l
      = l.map fun a => { a with unlocked := a.unlocked || decide (a.threshold ≤ m) } := by
  unfold evalAchievements
  congr 1
  funext a
  obtain ⟨thr, unl, clm⟩ := a
  cases unl <;> by_cases ht : thr ≤ m <;> simp [ht]

lemma foldl_maxStep_ge (l : List (Option Nat)) : ∀ m, m ≤ l.foldl maxStep m := by
  induction l with
  | nil => simp
  | cons c t ih =>
    intro m
    refine le_trans ?_ (ih (maxStep m c))
    cases c with
    | none => simp [maxStep]
    | some v =>
      simp only [maxStep]
      split_ifs <;> omega

lemma foldl_maxStep_mem_le (l : List (Option Nat)) :
    ∀ m v, some v ∈ l → v ≤ l.foldl maxStep m := by
  induction l with
  | nil => simp
  | cons c t ih =>
    intro m v hv
    rcases List.mem_cons.mp hv with heq | hmem
    · rw [List.foldl_cons, ← heq]
      refine le_trans ?_ (foldl_maxStep_ge t _)
      simp only [maxStep]
      split_ifs <;> omega
    · exact ih _ v hmem

lemma foldl_maxStep_eq_or (l : List (Option Nat)) :
    ∀ m, l.foldl maxStep m = m ∨ some (l.foldl maxStep m) ∈ l := by
  induction l with
  | nil => intro m; left; rfl
  | cons c t ih =>
    intro m
    rcases ih (maxStep m c) with h1 | h2
    · rw [List.foldl_cons, h1]
      cases c with
      | none => left; rfl
      | some v =>
        by_cases h0 : v = 0
        · left
          simp [maxStep, h0]
        · by_cases hlt : m < v
          · right
            simp [maxStep, h0, hlt, List.mem_cons]
          · left
            simp [maxStep, h0, hlt]
    · right
      rw [List.foldl_cons]
      exact List.mem_cons_of_mem _ h2

lemma mem_boardCells_iff (b : Board) (c : Option Nat) :
    c ∈ boardCells b ↔ ∃ i j, b i j = c := by
  simp [boardCells, eq_comm]

lemma boardMax_le {b : Board} (i j : Fin 4) (v : Nat) (hv : b i j = some v) :
    v ≤ boardMax b :=
  foldl_maxStep_mem_le _ 0 v ((mem_boardCells_iff b (some v)).mpr ⟨i, j, hv⟩)

lemma boardMax_attained {b : Board} (h : boardMax b ≠ 0) :
    ∃ i j, b i j = some (boardMax b) := by
  rcases foldl_maxStep_eq_or (boardCells b) 0 with h1 | h2
  · exact absurd h1 h
  · exact (mem_boardCells_iff b _).mp h2

/-- Claim C8: after a move that changes the grid, every achievement ends
unlocked exactly when it was already unlocked or the maximum unsealed
value of the post-spawn board reaches its threshold (threshold and
claimed flags untouched); an unchanged move leaves the list untouched;
unlocking is monotone; and boardMax is the maximum over the non-empty
cells (an upper bound, attained whenever it is nonzero). -/
theorem claim8_achievements (b : Board) (d : Direction) (k : Nat) (four : Bool)
    (ach : List Achievement) :
    ((move b d k four ach).changed = true →
      (move b d k four ach).achievements
        = ach.map fun a =>
            { a with unlocked := a.unlocked
                || decide (a.threshold ≤ boardMax ((move b d k four ach).board)) })
    ∧ ((move b d k four ach).changed = false → (move b d k four ach).achievements = ach)
    ∧ (∀ (n : Nat) (a a2 : Achievement), ach[n]? = some a →
        (move b d k four ach).achievements[n]? = some a2 →
        a.unlocked = true → a2.unlocked = true)
    ∧ (∀ i j v, (move b d k four ach).board i j = some v →
        v ≤ boardMax ((move b d k four ach).board))
    ∧ (boardMax ((move b d k four ach).board) ≠ 0 →
        ∃ i j, (move b d k four ach).board i j = some (boardMax ((move b d k four ach).board))) := by
  refine ⟨?_, ?_, ?_, fun i j v hv => boardMax_le i j v hv, fun h => boardMax_attained h⟩
  · intro hc
    rw [move_changed_eq] at hc
    simp only [move, hc, if_true]
    exact evalAchievements_map _ _
  · intro hc
    rw [move_changed_eq] at hc
    simp [move, hc]
  · intro n a a2 ha ha2 hun
    by_cases hm : moveChanged b d = true
    · simp only [move, hm, if_true] at ha2
      rw [evalAchievements_map, List.getElem?_map, ha] at ha2
      injection ha2 with ha3
      rw [← ha3]
      simp [hun]
    · simp [move, hm] at ha2
      rw [ha] at ha2
      injection ha2 with ha3
      rw [← ha3]
      exact hun

/-- Witness for claim C8: merging two 64 tiles creates a 128 tile, and the
achievement with threshold 128 follows the unlock formula. -/
theorem claim8_witness :
    (move (ofRows [[some 64, some 64]]) Direction.left 0 false
        [⟨128, false, false⟩]).achievements
      = [(⟨128, false, false⟩ : Achievement)].map (fun a =>
          { a with unlocked := a.unlocked || decide (a.threshold ≤
              boardMax ((move (ofRows [[some 64, some 64]]) Direction.left 0 false
                [⟨128, false, false⟩]).board)) }) :=
  (claim8_achievements (ofRows [[some 64, some 64]]) Direction.left 0 false
    [⟨128, false, false⟩]).1 (by decide)

lemma mem_emptyCellsList {b : Board} {p : Fin 4 × Fin 4} :
    p ∈ emptyCellsList b ↔ b p.1 p.2 = none := by
  obtain ⟨i, j⟩ := p
  simp [emptyCellsList, List.mem_flatMap, List.mem_map, List.mem_filter,
    Option.isNone_iff_eq_none, Prod.ext_iff]

lemma emptyCellsList_ne_nil {b : Board} (h : ∃ i j, b i j = none) :
    (emptyCellsList b).isEmpty = false := by
  obtain ⟨i, j, hij⟩ := h
  have hmem : (i, j) ∈ emptyCellsList b := mem_emptyCellsList.mpr hij
  cases hv : (emptyCellsList b).isEmpty
  · rfl
  · rw [List.isEmpty_iff] at hv
    rw [hv] at hmem
    simp at hmem

/-- Claim C10: on a grid with at least one empty cell, addRandomTile
differs from its input at exactly one cell: a previously empty cell now
holds a freshly sealed 2 or 4, and every other cell is unchanged (the
embedding is pure, matching the source which clones the board before
writing). -/
theorem claim10_spawn_frame (b : Board) (k : Nat) (four : Bool)
    (h : ∃ i j, b i j = none) :
    ∃ r c v, b r c = none
      ∧ (v = 2 ∨ v = 4)
      ∧ addRandomTile b k four r c = some v
      ∧ ∀ i j, ¬(i = r ∧ j = c) → addRandomTile b k four i j = b i j := by
  have hne : (emptyCellsList b).isEmpty = false := emptyCellsList_ne_nil h
  have hlen : 0 < (emptyCellsList b).length := by
    cases hl : emptyCellsList b with
    | nil =>
      rw [hl] at hne
      simp at hne
    | cons p t => simp [hl]
  have hidx : k % (emptyCellsList b).length < (emptyCellsList b).length :=
    Nat.mod_lt _ hlen
  have hmem : (emptyCellsList b).getD (k % (emptyCellsList b).length)
      (⟨0, by omega⟩, ⟨0, by omega⟩) ∈ emptyCellsList b := by
    rw [List.getD_eq_getElem _ _ hidx]
    exact List.getElem_mem hidx
  unfold addRandomTile
  simp only [hne, Bool.false_eq_true, if_false]
  refine ⟨((emptyCellsList b).getD (k % (emptyCellsList b).length)
      (⟨0, by omega⟩, ⟨0, by omega⟩)).1,
    ((emptyCellsList b).getD (k % (emptyCellsList b).length)
      (⟨0, by omega⟩, ⟨0, by omega⟩)).2,
    if four then 4 else 2, mem_emptyCellsList.mp hmem, ?_, ?_, ?_⟩
  · cases four
    · left
      simp
    · right
      simp
  · rw [if_pos ⟨rfl, rfl⟩]
  · intro i j hij
    rw [if_neg hij]

/-- Witness for claim C10: spawning on the empty board fills exactly one
cell with a 4 (the four flag set) and leaves the rest empty. -/
theorem claim10_witness :
    (∃ i j, emptyBoard i j = none)
    ∧ ∃ r c v, emptyBoard r c = none ∧ (v = 2 ∨ v = 4)
        ∧ addRandomTile emptyBoard 5 true r c = some v
        ∧ ∀ i j, ¬(i = r ∧ j = c) → addRandomTile emptyBoard 5 true i j = emptyBoard i j :=
  ⟨by decide, claim10_spawn_frame emptyBoard 5 true (by decide)⟩

/-- Counterexample to claim C5: with a provider whose unseal fails, the
row scan does not degrade to a merge-free slide: slideRowLeft propagates
the provider error to its caller (there is no handler between
`client.unseal` and the UI event handler). -/
theorem claim5_counterexample :
    slideRowLeftE
        { encrypt32 := fun v => v, unsealFn := fun _ => Except.error "Decrypt failed" }
        [some 2, some 2, none, none]
      = Except.error "Decrypt failed"
    ∧ slideRowLeftE
        { encrypt32 := fun v => v, unsealFn := fun _ => Except.error "Decrypt failed" }
        [some 2, some 2, none, none]
      ≠ Except.ok ([some 2, some 2, none, none], 0) :=
  ⟨rfl, fun h => Except.noConfusion h⟩

lemma ok_bind {α β : Type} (a : α) (f : α → Except String β) :
    (Except.ok a >>= f) = f a := rfl

lemma error_bind {α β : Type} (e : String) (f : α → Except String β) :
    ((Except.error e : Except String α) >>= f) = Except.error e := rfl

lemma pure_eq_ok {α : Type} (a : α) : (pure a : Except String α) = Except.ok a := rfl

/-- Claim C5 as amended: an unsealing failure during a row scan is not
treated as an unknown, non-matching value; the engine has no handler, so
the first failing unseal aborts slideRowLeft and the provider error
reaches its caller unchanged (the grid itself is not modified, the update
being skipped). -/
theorem claim5_amended (c : Client) (x y : Nat) (rest : List (Option Nat)) (e : String)
    (hx : c.unsealFn (some x) = Except.error e) :
    slideRowLeftE c (some x :: some y :: rest) = Except.error e := by
  have hf : (some x :: some y :: rest).filterMap id = x :: y :: rest.filterMap id := by
    simp
  simp [slideRowLeftE, hf, mergeRunE, mergeRunEAux, hx, error_bind]

/-- Witness for the amended claim C5: a provider that always fails makes
slideRowLeft fail on the row `[2,2]`. -/
theorem claim5_witness :
    Client.unsealFn { encrypt32 := fun v => v, unsealFn := fun _ => Except.error "boom" }
        (some 2) = Except.error "boom"
    ∧ slideRowLeftE { encrypt32 := fun v => v, unsealFn := fun _ => Except.error "boom" }
        [some 2, some 2] = Except.error "boom" :=
  ⟨rfl, claim5_amended _ 2 2 [] "boom" rfl⟩

lemma mergeRunEAux_mock (l : List Nat) :
    ∀ a, mergeRunEAux mockClient a l = Except.ok (mergeRunAux a l) := by
  induction l with
  | nil => intro a; rfl
  | cons b rest ih =>
    intro a
    have hu : ∀ x : Option Nat, mockClient.unsealFn x = Except.ok (x.getD 0) :=
      fun x => rfl
    have he : ∀ v : Nat, mockClient.encrypt32 v = v := fun v => rfl
    by_cases h : a = b <;>
      simp [mergeRunEAux, mergeRunAux, hu, he, h, ih, ok_bind]

lemma mergeRunE_mock (l : List Nat) : mergeRunE mockClient l = Except.ok (mergeRun l) := by
  cases l with
  | nil => rfl
  | cons a rest => exact mergeRunEAux_mock rest a

lemma slideRowLeftE_mock (row : List (Option Nat)) :
    slideRowLeftE mockClient row = Except.ok (slideRowLeft row) := by
  simp [slideRowLeftE, slideRowLeft, mergeRunE_mock, ok_bind]

lemma checkCellE_mock (b : Board) (i j : Fin 4) :
    checkCellE mockClient b i j = Except.ok (cellOkB b i j) := by
  by_cases hn : b i j = none
  · simp [checkCellE, cellOkB, hn]
  · have hs : (b i j).isSome = true := Option.isSome_iff_ne_none.mpr hn
    have hu : ∀ x : Option Nat, mockClient.unsealFn x = Except.ok (x.getD 0) :=
      fun x => rfl
    unfold checkCellE cellOkB
    rw [if_neg hn]
    by_cases h1 : (i : Nat) + 1 < 4
    <;> by_cases h2 : (j : Nat) + 1 < 4
    <;> simp only [h1, h2, dif_pos, dif_neg, not_false_iff, hu, pure_eq_ok, ok_bind,
          hs, Bool.true_and, munseal]
    <;> split_ifs
    <;> simp_all

lemma isGameOverEAux_mock (b : Board) (l : List (Fin 4 × Fin 4)) :
    isGameOverEAux mockClient b l = Except.ok (l.all fun p => cellOkB b p.1 p.2) := by
  induction l with
  | nil => rfl
  | cons p t ih =>
    simp only [isGameOverEAux, checkCellE_mock, List.all_cons, ok_bind]
    by_cases hc : cellOkB b p.1 p.2 = true
    · simp [hc, ih]
    · simp only [Bool.not_eq_true] at hc
      simp [hc]

/-- Claim C6: in the failed (`error`) and sealing-unavailable
(`cdn-missing`) readiness states the client memo hands the game the mock
pass-through provider, whose unseal inverts its seal and never fails, so
the slide pass and the terminal check compute exactly the pure engine
results without any error, the spawn is total, and the move gate of the
board component does not block in the mock fallback state. -/
theorem claim6_mock_fallback :
    (∀ (avail : Bool) (real : Client),
        clientFor FHEStatus.error avail real = mockClient
        ∧ clientFor FHEStatus.cdnMissing avail real = mockClient)
    ∧ (∀ v : Nat, mockClient.unsealFn (some (mockClient.encrypt32 v)) = Except.ok v)
    ∧ (∀ row, slideRowLeftE mockClient row = Except.ok (slideRowLeft row))
    ∧ (∀ b : Board, isGameOverE mockClient b = Except.ok (isGameOver b))
    ∧ moveBlocked false mockFallbackState = false := by
  refine ⟨?_, fun v => rfl, slideRowLeftE_mock, ?_, rfl⟩
  · intro avail real
    constructor <;> simp [clientFor]
  · intro b
    rw [isGameOverE, isGameOverEAux_mock]
    rfl

/-- Counterexample to claim C9: after 50 silent poll ticks (10 seconds of
the 200 ms timer, past the 5-10 s bound the spec suggests) the status is
still booting; the machine never surfaces sealing-unavailable by itself. -/
theorem claim9_counterexample :
    pollRun silentSignals 50 = FHEStatus.booting
    ∧ pollRun silentSignals 50 ≠ FHEStatus.cdnMissing :=
  ⟨by decide, by decide⟩

/-- Claim C9 as amended: the poll loop has no bounded escape hatch: with
no environment signal the status is booting after every number of ticks
(the loop re-arms forever and never reaches `cdn-missing`); gameplay
nonetheless stays playable because every non-ready status, booting
included, is served the mock client. -/
theorem claim9_amended (n : Nat) :
    pollRun silentSignals n = FHEStatus.booting
    ∧ ∀ (avail : Bool) (real : Client),
        clientFor (pollRun silentSignals n) avail real = mockClient := by
  have hb : pollRun silentSignals n = FHEStatus.booting := by
    induction n with
    | zero => rfl
    | succ n ih => simp [pollRun, ih, silentSignals]
  exact ⟨hb, fun avail real => by simp [clientFor, hb]⟩

end Enc
